import Mathlib

/-!
Shallow embedding of the tutorial registry and tutorial tree model of
vscode-didact (`src/utils.ts` and `src/nodeProvider.ts`), together with
theorems checking the specified behaviour of registration, lookup and
tree-node construction.

Modelling conventions:
* The registry persisted under the `didact.registered` workspace setting is a
  list of JSON strings, each produced by `JSON.stringify` of an object
  `{name, category, sourceUri}`.  Since every entry is written by
  `registerTutorial` itself and `JSON.parse t (JSON.stringify o) = o`, an entry
  is modelled as the parsed record `TutorialEntry`.  The possibly-undefined
  setting (`string[] | undefined`) is `Option (List TutorialEntry)`.
* JavaScript truthiness tests on strings (`if (jsonObj.name)`, ...) are
  `isEmpty = false` tests: the only falsy string is `""`.
* `String.prototype.toLowerCase()` is `jsToLower`, characterwise lowercasing
  (the registry claims only exercise ASCII data).
* `JSON.stringify`/`JSON.parse` round-trips are the identity on entries, so
  they do not appear explicitly.
-/

namespace Didact

/-- Registry entry: the object `{"name": ..., "category": ..., "sourceUri": ...}`
stored (JSON-stringified) in the `didact.registered` setting. -/
structure TutorialEntry where
  name : String
  category : String
  sourceUri : String
deriving DecidableEq, Repr

/-- JavaScript `String.prototype.toLowerCase()` on the ASCII data the
registry handles: lowercase every character.  (Defined by a structural map
over the character list so that it evaluates inside the kernel;
`String.toLower` computes the same characterwise lowercase.) -/
def jsToLower (s : String) : String :=
  ⟨s.data.map Char.toLower⟩

/-- Duplicate test performed by the loop in `registerTutorial`
(src/utils.ts:91-101): the entry participates only when its `name` and
`category` fields are truthy, and then the *stored* fields are lowercased and
compared (`===`) with the incoming `name`/`category` verbatim. -/
def entryMatches (name category : String) (e : TutorialEntry) : Bool :=
  !e.name.isEmpty && !e.category.isEmpty &&
    jsToLower e.name == name && jsToLower e.category == category

/-- Error message thrown by `registerTutorial` on a duplicate
(src/utils.ts:105). -/
def duplicateMessage (name category : String) : String :=
  s!"Didact tutorial with name {name} and category {category} already exists"

/-- `registerTutorial(name, sourceUri, category)` (src/utils.ts:77-113).
A missing (`undefined`) registry becomes the singleton list; otherwise the
duplicate scan runs and either the new entry is pushed or an `Error` is
thrown.  The thrown error is the `.error` case; `.ok` carries the registry
value passed to `getConfiguration().update`. -/
def registerTutorial (registry : Option (List TutorialEntry))
    (name sourceUri category : String) : Except String (List TutorialEntry) :=
  let newDidact : TutorialEntry := ⟨name, category, sourceUri⟩
  match registry with
  | none => .ok [newDidact]
  | some existingRegistry =>
    if existingRegistry.any (entryMatches name category) then
      .error (duplicateMessage name category)
    else
      .ok (existingRegistry ++ [newDidact])

/-- The persisted registry after a `registerTutorial` call: the workspace
setting is updated (src/utils.ts:109) only when no error was thrown; a thrown
duplicate error leaves the stored setting untouched. -/
def registryAfterRegister (registry : Option (List TutorialEntry))
    (name sourceUri category : String) : Option (List TutorialEntry) :=
  match registerTutorial registry name sourceUri category with
  | .ok updated => some updated
  | .error _ => registry

/-- `getDidactCategories()` (src/utils.ts:115-129): pushes the `category`
field of every entry whose `category` is truthy, in registration order.  No
de-duplication happens here (the local `match` variable in the source is never
used). -/
def getDidactCategories (registry : Option (List TutorialEntry)) : List String :=
  match registry with
  | none => []
  | some existingRegistry =>
    (existingRegistry.filter (fun e => !e.category.isEmpty)).map (·.category)

/-- `getTutorialsForCategory(category)` (src/utils.ts:131-148): pushes the
`name` of every entry whose `category` and `name` are truthy and whose stored
`category` equals (`===`, case-sensitive) the query. -/
def getTutorialsForCategory (registry : Option (List TutorialEntry))
    (category : String) : List String :=
  match registry with
  | none => []
  | some existingRegistry =>
    (existingRegistry.filter
      (fun e => !e.category.isEmpty && !e.name.isEmpty && e.category == category)).map
      (·.name)

/-- `getUriForDidactNameAndCategory(name, category)` (src/utils.ts:150-166):
returns the `sourceUri` of the first entry whose `category`, `name` and
`sourceUri` are all truthy and whose `name` and `category` equal (`===`) the
query; `undefined` when none matches. -/
def getUriForDidactNameAndCategory (registry : Option (List TutorialEntry))
    (name category : String) : Option String :=
  match registry with
  | none => none
  | some existingRegistry =>
    (existingRegistry.find?
      (fun e => !e.category.isEmpty && !e.name.isEmpty && !e.sourceUri.isEmpty &&
        e.name == name && e.category == category)).map (·.sourceUri)

/-!
Embedding of the tree model (`src/nodeProvider.ts`).  The HTML elements handed
to the node provider by `node-html-parser` are modelled by `HNode`.  The
external collaborators `computeTimeForDidactFileUri` / `getTimeElementsForDidactFileUri`
(defined in `extensionFunctions.ts`, outside the embedded modules) are
parameters: the time oracle is a function argument and the heading elements a
list argument; `isAsciiDoc` selects between the two branches of
`processHeadingsForTutorial`, embedded as two functions.
-/

/-- Parsed HTML node: an element with tag name, attributes, text content and
children, or a bare text node.  `node-html-parser`'s `innerText`/`rawText` of
an element are both modelled by the stored `text` field. -/
inductive HNode where
  | elem (tagName : String) (attrs : List (String × String)) (text : String)
      (children : List HNode)
  | textNode (content : String)

/-- `HTMLElement.getAttribute`: first binding of the attribute name. -/
def HNode.getAttribute : HNode → String → Option String
  | .elem _ attrs _ _, attrName => (attrs.find? (fun p => p.1 == attrName)).map (·.2)
  | .textNode _, _ => none

/-- Child nodes of an element (`childNodes`). -/
def HNode.childNodes : HNode → List HNode
  | .elem _ _ _ cs => cs
  | .textNode _ => []

/-- Visible text (`innerText` / `rawText`). -/
def HNode.rawText : HNode → String
  | .elem _ _ t _ => t
  | .textNode s => s

/-- JavaScript `String.prototype.startsWith`.  (Structurally recursive over
the character lists, computing the same test as `String.startsWith`.) -/
def jsStartsWith (s pre : String) : Bool :=
  pre.data.isPrefixOf s.data

/-- Splitting helper for `jsSplitOnChar`: accumulate the current piece in
reverse. -/
def splitOnCharAux (sep : Char) : List Char → List Char → List String
  | [], acc => [⟨acc.reverse⟩]
  | c :: rest, acc =>
    if c == sep then ⟨acc.reverse⟩ :: splitOnCharAux sep rest []
    else splitOnCharAux sep rest (c :: acc)

/-- JavaScript `String.prototype.split(sep)` for a one-character separator
(the source splits on `' '` and `'='`): empty pieces are kept and the empty
string splits to `[""]`. -/
def jsSplitOnChar (sep : Char) (s : String) : List String :=
  splitOnCharAux sep s.data []

/-- The check `children[i] instanceof HTMLElement && child.tagName.startsWith('H')`
performed by `getNodeFromADOCDiv` (src/nodeProvider.ts:175-177). -/
def isHeadingLike : HNode → Bool
  | .elem tagName _ _ _ => jsStartsWith tagName "H"
  | .textNode _ => false

/-- `vscode.TreeItemCollapsibleState`. -/
inductive CollapsibleState where
  | None
  | Collapsed
  | Expanded
deriving DecidableEq, Repr

/-- `TreeNode` (src/nodeProvider.ts:294-306): category, label, uri and
collapsible state (the fields the claims are about). -/
structure TreeNode where
  category : Option String
  label : String
  uri : Option String
  collapsibleState : CollapsibleState
deriving DecidableEq, Repr

/-- `TutorialNode` (src/nodeProvider.ts:308-323): a `TreeNode` whose
`description` holds the optional time label passed as `inTooltip`. -/
structure TutorialNode where
  category : Option String
  label : String
  uri : Option String
  collapsibleState : CollapsibleState
  description : Option String
deriving DecidableEq, Repr

/-- `HeadingNode` (src/nodeProvider.ts:326-337). -/
structure HeadingNode where
  category : Option String
  label : String
  uri : Option String
  description : Option String
deriving DecidableEq, Repr

/-- `doesNodeExist(oldNodes, newNode)` (src/nodeProvider.ts:113-120): linear
scan comparing labels only.  The label projection is a parameter because the
source function works uniformly on every `SimpleNode` subclass. -/
def doesNodeExist {α : Type} (labelOf : α → String) (oldNodes : List α)
    (newNode : α) : Bool :=
  oldNodes.any (fun node => labelOf node == labelOf newNode)

/-- Loop body of `processRegisteredTutorials` (src/nodeProvider.ts:123-133):
for each category a collapsed `TreeNode(category, category, undefined)` is
appended to `treeNodes` unless a node with the same label already exists. -/
def processRegisteredTutorialsAux (treeNodes : List TreeNode) :
    List String → List TreeNode
  | [] => treeNodes
  | category :: rest =>
    let newNode : TreeNode := ⟨some category, category, none, .Collapsed⟩
    if doesNodeExist TreeNode.label treeNodes newNode then
      processRegisteredTutorialsAux treeNodes rest
    else
      processRegisteredTutorialsAux (treeNodes ++ [newNode]) rest

/-- `processRegisteredTutorials()` (src/nodeProvider.ts:123-133) acting on the
provider's `treeNodes` list. -/
def processRegisteredTutorials (registry : Option (List TutorialEntry))
    (treeNodes : List TreeNode) : List TreeNode :=
  processRegisteredTutorialsAux treeNodes (getDidactCategories registry)

/-- JavaScript whitespace trimming (structural over the character list). -/
def jsTrim (s : String) : String :=
  ⟨((s.data.dropWhile Char.isWhitespace).reverse.dropWhile Char.isWhitespace).reverse⟩

/-- Decimal value of a non-empty all-digit character list; `none` otherwise. -/
def jsDigitsVal (cs : List Char) : Option Nat :=
  if cs.isEmpty then none
  else
    cs.foldl
      (fun acc c =>
        match acc with
        | none => none
        | some n => if c.isDigit then some (n * 10 + (c.toNat - 48)) else none)
      (some 0)

/-- JavaScript `Number(x)` on the string/undefined inputs that reach it here,
with `none` standing for `NaN`: `Number(undefined)` is `NaN`, `Number("")`
(and all-whitespace strings) is `0`, an optionally signed decimal integer
token parses, and any other token (e.g. `"abc"`) is `NaN`.  (Fractional,
exponent and hex forms never occur in the claims and are not modelled.) -/
def jsNumber : Option String → Option Int
  | none => none
  | some s =>
    match (jsTrim s).data with
    | [] => some 0
    | '-' :: rest => (jsDigitsVal rest).map (fun n => -(n : Int))
    | '+' :: rest => (jsDigitsVal rest).map (fun n => (n : Int))
    | cs => (jsDigitsVal cs).map (fun n => (n : Int))

/-- JavaScript template interpolation of a possibly-undefined string:
`undefined` prints as `"undefined"`. -/
def jsDisplay : Option String → String
  | none => "undefined"
  | some s => s

/-- Loop body of `processTutorialsForCategory` (src/nodeProvider.ts:135-161):
`timeForUri` models the awaited `computeTimeForDidactFileUri` collaborator. -/
def processTutorialsForCategoryAux (registry : Option (List TutorialEntry))
    (cat : String) (timeForUri : String → Int) (children : List TutorialNode) :
    List String → List TutorialNode
  | [] => children
  | tutorial :: rest =>
    let tutUri := getUriForDidactNameAndCategory registry tutorial cat
    let stateAndLabel : CollapsibleState × Option String :=
      match tutUri with
      | some u =>
        if !u.isEmpty then
          let timeCount := timeForUri u
          if timeCount > 0 then (.Collapsed, some s!"(~{timeCount} mins)")
          else (.None, none)
        else (.None, none)
      | none => (.None, none)
    let newNode : TutorialNode :=
      ⟨some cat, tutorial, tutUri, stateAndLabel.1, stateAndLabel.2⟩
    if doesNodeExist TutorialNode.label children newNode then
      processTutorialsForCategoryAux registry cat timeForUri children rest
    else
      processTutorialsForCategoryAux registry cat timeForUri (children ++ [newNode]) rest

/-- `processTutorialsForCategory(category)` (src/nodeProvider.ts:135-161). -/
def processTutorialsForCategory (registry : Option (List TutorialEntry))
    (category : Option String) (timeForUri : String → Int) : List TutorialNode :=
  match category with
  | none => []
  | some cat =>
    processTutorialsForCategoryAux registry cat timeForUri []
      (getTutorialsForCategory registry cat)

/-- Warning emitted for a heading with an invalid time value
(src/nodeProvider.ts:182 and 214). -/
def headingWarning (title attr : String) : String :=
  s!"Warning: Heading node \x22{title}\x22 has an invalid time value set to \x22{attr}\x22"

/-- Inner child loop of `getNodeFromADOCDiv` (src/nodeProvider.ts:172-187):
the first `HTMLElement` child whose tag starts with `'H'` supplies the title;
with a valid time the node is returned at once, otherwise a warning per such
child is emitted and scanning continues. -/
def adocChildScan (timeValue : Option Int) (splitTime : String)
    (category tutUri : Option String) :
    List HNode → List String → Option HeadingNode × List String
  | [], warnings => (none, warnings)
  | child :: rest, warnings =>
    match child with
    | .elem tagName _ text _ =>
      if jsStartsWith tagName "H" then
        match timeValue with
        | some v =>
          (some ⟨category, text, tutUri, some s!"(~{v} mins)"⟩, warnings)
        | none =>
          adocChildScan timeValue splitTime category tutUri rest
            (warnings ++ [headingWarning text splitTime])
      else adocChildScan timeValue splitTime category tutUri rest warnings
    | .textNode _ => adocChildScan timeValue splitTime category tutUri rest warnings

/-- Outer chunk loop of `getNodeFromADOCDiv` (src/nodeProvider.ts:166-189)
over the space-split class attribute: a chunk starting with `time=` triggers a
scan of the div's children (when it has any); a returned node exits the
function, otherwise later chunks are still examined. -/
def adocChunkScan (divChildren : List HNode) (category tutUri : Option String) :
    List String → List String → Option HeadingNode × List String
  | [], warnings => (none, warnings)
  | chunk :: rest, warnings =>
    if jsStartsWith chunk "time=" then
      let splitTime := (jsSplitOnChar '=' chunk).getD 1 ""
      let timeValue := jsNumber (some splitTime)
      if divChildren.length > 0 then
        match adocChildScan timeValue splitTime category tutUri divChildren warnings with
        | (some node, ws) => (some node, ws)
        | (none, ws) => adocChunkScan divChildren category tutUri rest ws
      else adocChunkScan divChildren category tutUri rest warnings
    else adocChunkScan divChildren category tutUri rest warnings

/-- `getNodeFromADOCDiv(divElement, tutUri, category)`
(src/nodeProvider.ts:163-192).  Besides the optional node, the warnings sent
to the output channel are returned. -/
def getNodeFromADOCDiv (divElement : HNode) (tutUri category : Option String) :
    Option HeadingNode × List String :=
  match divElement.getAttribute "class" with
  | none => (none, [])
  | some classAttr =>
    if classAttr.isEmpty then (none, [])
    else adocChunkScan divElement.childNodes category tutUri (jsSplitOnChar ' ' classAttr) []

/-- Loop body of the Markdown branch of `processHeadingsForTutorial`
(src/nodeProvider.ts:199-216): the node is appended only when its label is new
*and* a time label was computed; a `NaN` time value emits one warning. -/
def processHeadingsMarkdownAux (category : Option String) (tutUri : String) :
    List HNode → List HeadingNode → List String → List HeadingNode × List String
  | [], children, warnings => (children, warnings)
  | heading :: rest, children, warnings =>
    let timeAttr := heading.getAttribute "time"
    let timeValue := jsNumber timeAttr
    let timeLabel : Option String :=
      match timeValue with
      | some v => some s!"(~{v} mins)"
      | none => none
    let title := heading.rawText
    let newNode : HeadingNode := ⟨category, title, some tutUri, timeLabel⟩
    let children2 :=
      if !doesNodeExist HeadingNode.label children newNode && timeLabel.isSome then
        children ++ [newNode]
      else children
    let warnings2 :=
      match timeValue with
      | none => warnings ++ [headingWarning title (jsDisplay timeAttr)]
      | some _ => warnings
    processHeadingsMarkdownAux category tutUri rest children2 warnings2

/-- Markdown branch of `processHeadingsForTutorial` (src/nodeProvider.ts:198-217)
with the elements returned by `getTimeElementsForDidactFileUri` passed in. -/
def processHeadingsMarkdown (category : Option String) (tutUri : String)
    (headings : List HNode) : List HeadingNode × List String :=
  processHeadingsMarkdownAux category tutUri headings [] []

/-- Loop body of the AsciiDoc branch of `processHeadingsForTutorial`
(src/nodeProvider.ts:218-226). -/
def processHeadingsAdocAux (category : Option String) (tutUri : String) :
    List HNode → List HeadingNode → List String → List HeadingNode × List String
  | [], children, warnings => (children, warnings)
  | heading :: rest, children, warnings =>
    let scanned := getNodeFromADOCDiv heading (some tutUri) category
    match scanned.1 with
    | some newNode =>
      if doesNodeExist HeadingNode.label children newNode then
        processHeadingsAdocAux category tutUri rest children (warnings ++ scanned.2)
      else
        processHeadingsAdocAux category tutUri rest (children ++ [newNode])
          (warnings ++ scanned.2)
    | none => processHeadingsAdocAux category tutUri rest children (warnings ++ scanned.2)

/-- AsciiDoc branch of `processHeadingsForTutorial` (src/nodeProvider.ts:218-226). -/
def processHeadingsAdoc (category : Option String) (tutUri : String)
    (headings : List HNode) : List HeadingNode × List String :=
  processHeadingsAdocAux category tutUri headings [] []

/-- `findCategoryNode(category)` (src/nodeProvider.ts:232-238): a *fresh*
collapsed `TreeNode(category, category, undefined)` is built and returned
whenever `doesNodeExist` finds a top-level node with that label; the stored
node itself is never returned. -/
def findCategoryNode (treeNodes : List TreeNode) (category : String) :
    Option TreeNode :=
  let nodeToFind : TreeNode := ⟨some category, category, none, .Collapsed⟩
  if doesNodeExist TreeNode.label treeNodes nodeToFind then some nodeToFind
  else none

/-! ### Helper lemmas -/

/-- Unfolding of the duplicate scan: some entry passes `entryMatches`. -/
theorem any_entryMatches_iff (l : List TutorialEntry) (name cat : String) :
    l.any (entryMatches name cat) = true ↔
      ∃ e ∈ l, e.name.isEmpty = false ∧ e.category.isEmpty = false ∧
        jsToLower e.name = name ∧ jsToLower e.category = cat := by
  simp [entryMatches, List.any_eq_true, Bool.and_eq_true, Bool.not_eq_true',
    and_assoc]

/-- Entries that all fail a predicate do not affect `find?` over an append. -/
theorem find?_append_of_all_false {α : Type} (p : α → Bool) (l₁ l₂ : List α)
    (h : ∀ a ∈ l₁, p a = false) : (l₁ ++ l₂).find? p = l₂.find? p := by
  induction l₁ with
  | nil => rfl
  | cons a l ih =>
    have ha : p a = false := h a (List.mem_cons_self a l)
    simp only [List.cons_append, List.find?, ha]
    exact ih (fun b hb => h b (List.mem_cons_of_mem a hb))

/-! ### Claim theorems: registry (C1-C5) -/

/-- Claim C1, counterexample: `("foo","cat")` is registered and
`("Foo","cat")` is equal to it under case-insensitive comparison, yet
`registerTutorial("Foo", "u2", "cat")` does not fail with a duplicate error:
it appends.  The source lowercases only the stored side of the comparison. -/
theorem registerTutorial_case_insensitive_both_directions_cex :
    jsToLower "foo" = jsToLower "Foo" ∧
    registerTutorial (some [⟨"foo", "cat", "u"⟩]) "Foo" "u2" "cat" =
      .ok [⟨"foo", "cat", "u"⟩, ⟨"Foo", "cat", "u2"⟩] := by
  exact ⟨rfl, rfl⟩

/-- Claim C1 as amended: `registerTutorial` fails with the duplicate error
exactly when some existing registration with non-empty name and category
satisfies `stored.name.toLowerCase() === name` and
`stored.category.toLowerCase() === category` (the stored side only is
lowercased); otherwise the new registration is appended. -/
theorem registerTutorial_duplicate_one_directional (reg : List TutorialEntry)
    (name sourceUri cat : String) :
    ((∃ e ∈ reg, e.name.isEmpty = false ∧ e.category.isEmpty = false ∧
        jsToLower e.name = name ∧ jsToLower e.category = cat) →
      registerTutorial (some reg) name sourceUri cat =
        .error (duplicateMessage name cat)) ∧
    ((∀ e ∈ reg, ¬(e.name.isEmpty = false ∧ e.category.isEmpty = false ∧
        jsToLower e.name = name ∧ jsToLower e.category = cat)) →
      registerTutorial (some reg) name sourceUri cat =
        .ok (reg ++ [⟨name, cat, sourceUri⟩])) := by
  constructor
  · intro h
    have hany : reg.any (entryMatches name cat) = true :=
      (any_entryMatches_iff reg name cat).mpr h
    simp [registerTutorial, hany]
  · intro h
    have hany : reg.any (entryMatches name cat) = false := by
      cases hval : reg.any (entryMatches name cat) with
      | false => rfl
      | true =>
        obtain ⟨e, he, h1, h2, h3, h4⟩ := (any_entryMatches_iff reg name cat).mp hval
        exact absurd ⟨h1, h2, h3, h4⟩ (h e he)
    simp [registerTutorial, hany]

/-- Claim C1 witness: with `("Foo","Cat")` stored, registering `("foo","cat")`
(the lowercase direction that the code does detect) fails with the duplicate
error, and an unrelated pair is appended. -/
theorem registerTutorial_duplicate_one_directional_witness :
    registerTutorial (some [⟨"Foo", "Cat", "u"⟩]) "foo" "u2" "cat" =
      .error (duplicateMessage "foo" "cat") ∧
    registerTutorial (some [⟨"Foo", "Cat", "u"⟩]) "bar" "u2" "cat" =
      .ok [⟨"Foo", "Cat", "u"⟩, ⟨"bar", "cat", "u2"⟩] :=
  ⟨(registerTutorial_duplicate_one_directional [⟨"Foo", "Cat", "u"⟩] "foo" "u2" "cat").1
      ⟨⟨"Foo", "Cat", "u"⟩, by simp, by decide⟩,
    (registerTutorial_duplicate_one_directional [⟨"Foo", "Cat", "u"⟩] "bar" "u2" "cat").2
      (by decide)⟩

/-- Claim C2, counterexample: two tutorials registered under the same
category `"cat"` make `getDidactCategories` return `"cat"` twice — the
function performs no de-duplication. -/
theorem getDidactCategories_duplicates_cex :
    registerTutorial none "a" "u" "cat" = .ok [⟨"a", "cat", "u"⟩] ∧
    registerTutorial (some [⟨"a", "cat", "u"⟩]) "b" "u" "cat" =
      .ok [⟨"a", "cat", "u"⟩, ⟨"b", "cat", "u"⟩] ∧
    getDidactCategories (some [⟨"a", "cat", "u"⟩, ⟨"b", "cat", "u"⟩]) =
      ["cat", "cat"] ∧
    getDidactCategories (some [⟨"a", "cat", "u"⟩, ⟨"b", "cat", "u"⟩]) ≠ ["cat"] :=
  ⟨rfl, rfl, rfl, by decide⟩

/-- Claim C2 as amended: `getDidactCategories` returns the category of every
registration with a non-empty category, in registration order, duplicates
retained — each successful registration appends its (non-empty) category to
the result. -/
theorem getDidactCategories_appends (reg : Option (List TutorialEntry))
    (name sourceUri cat : String) (updated : List TutorialEntry)
    (h : registerTutorial reg name sourceUri cat = .ok updated) :
    getDidactCategories (some updated) =
      getDidactCategories reg ++ (if cat.isEmpty then [] else [cat]) := by
  cases reg with
  | none =>
    simp only [registerTutorial, Except.ok.injEq] at h
    subst h
    by_cases hc : cat.isEmpty <;>
      simp [getDidactCategories, List.filter, hc]
  | some l =>
    simp only [registerTutorial] at h
    by_cases hany : l.any (entryMatches name cat) = true
    · simp [hany] at h
    · rw [Bool.not_eq_true] at hany
      simp only [hany, Bool.false_eq_true, if_false, Except.ok.injEq] at h
      subst h
      by_cases hc : cat.isEmpty <;>
        simp [getDidactCategories, List.filter_append, List.filter, hc]

/-- Claim C2 witness: registering `("b","cat")` over a registry already
holding `("a","cat")` appends a second `"cat"` to the category list. -/
theorem getDidactCategories_appends_witness :
    getDidactCategories (some [⟨"a", "cat", "u"⟩, ⟨"b", "cat", "u"⟩]) =
      getDidactCategories (some [⟨"a", "cat", "u"⟩]) ++
        (if ("cat" : String).isEmpty then [] else ["cat"]) :=
  getDidactCategories_appends (some [⟨"a", "cat", "u"⟩]) "b" "u" "cat"
    [⟨"a", "cat", "u"⟩, ⟨"b", "cat", "u"⟩] rfl

/-- Claim C3: when the duplicate check fires (a stored registration with
non-empty fields lowercases onto the given name and category), the call
throws the duplicate error before `getConfiguration().update` runs, so the
persisted registry is exactly the registry before the call. -/
theorem registerTutorial_failure_leaves_registry (reg : List TutorialEntry)
    (name sourceUri cat : String) (e : TutorialEntry) (he : e ∈ reg)
    (hn : e.name.isEmpty = false) (hc : e.category.isEmpty = false)
    (hln : jsToLower e.name = name) (hlc : jsToLower e.category = cat) :
    registerTutorial (some reg) name sourceUri cat =
      .error (duplicateMessage name cat) ∧
    registryAfterRegister (some reg) name sourceUri cat = some reg := by
  have hany : reg.any (entryMatches name cat) = true :=
    (any_entryMatches_iff reg name cat).mpr ⟨e, he, hn, hc, hln, hlc⟩
  constructor
  · simp [registerTutorial, hany]
  · simp [registryAfterRegister, registerTutorial, hany]

/-- Claim C3 witness: the duplicate registration of `("foo","cat")` over the
stored `("Foo","Cat")` fails and leaves the stored registry intact. -/
theorem registerTutorial_failure_leaves_registry_witness :
    registerTutorial (some [⟨"Foo", "Cat", "u"⟩]) "foo" "u2" "cat" =
      .error (duplicateMessage "foo" "cat") ∧
    registryAfterRegister (some [⟨"Foo", "Cat", "u"⟩]) "foo" "u2" "cat" =
      some [⟨"Foo", "Cat", "u"⟩] :=
  registerTutorial_failure_leaves_registry [⟨"Foo", "Cat", "u"⟩] "foo" "u2" "cat"
    ⟨"Foo", "Cat", "u"⟩ (by simp) (by decide) (by decide) (by decide) (by decide)

/-- Claim C4, counterexample: registering with the empty source URI succeeds,
but resolving the freshly registered pair returns `undefined` rather than the
registered URI, because `getUriForDidactNameAndCategory` skips entries whose
`sourceUri` is falsy. -/
theorem resolveUri_roundtrip_cex :
    registerTutorial none "a" "" "c" = .ok [⟨"a", "c", ""⟩] ∧
    getUriForDidactNameAndCategory (some [⟨"a", "c", ""⟩]) "a" "c" = none ∧
    getUriForDidactNameAndCategory (some [⟨"a", "c", ""⟩]) "a" "c" ≠ some "" :=
  ⟨rfl, rfl, by decide⟩

/-- Claim C4 as amended: provided name, category and source URI are all
non-empty, registering a pair that is not yet present (no stored entry
lowercases onto it and none equals it exactly) and then resolving it returns
exactly the registered source URI; resolving a pair that no stored entry
matches exactly returns `undefined`. -/
theorem registerTutorial_resolveUri_roundtrip :
    (∀ (reg : Option (List TutorialEntry)) (name sourceUri cat : String),
      name.isEmpty = false → cat.isEmpty = false → sourceUri.isEmpty = false →
      (∀ e ∈ reg.getD [],
        ¬(jsToLower e.name = name ∧ jsToLower e.category = cat) ∧
        ¬(e.name = name ∧ e.category = cat)) →
      ∃ updated, registerTutorial reg name sourceUri cat = .ok updated ∧
        getUriForDidactNameAndCategory (some updated) name cat = some sourceUri) ∧
    (∀ (reg : Option (List TutorialEntry)) (name cat : String),
      (∀ e ∈ reg.getD [], ¬(e.name = name ∧ e.category = cat)) →
      getUriForDidactNameAndCategory reg name cat = none) := by
  have resolvePred : ∀ (name cat : String) (e : TutorialEntry),
      ¬(e.name = name ∧ e.category = cat) →
      (!e.category.isEmpty && !e.name.isEmpty && !e.sourceUri.isEmpty &&
        e.name == name && e.category == cat) = false := by
    intro name cat e hne
    by_cases h1 : e.name = name
    · by_cases h2 : e.category = cat
      · exact absurd ⟨h1, h2⟩ hne
      · simp [h2]
    · simp [h1]
  constructor
  · intro reg name sourceUri cat hn hc hu habs
    have hfind : ∀ l : List TutorialEntry,
        (∀ e ∈ l, ¬(e.name = name ∧ e.category = cat)) →
        getUriForDidactNameAndCategory (some (l ++ [⟨name, cat, sourceUri⟩]))
          name cat = some sourceUri := by
      intro l hl
      simp only [getUriForDidactNameAndCategory]
      rw [find?_append_of_all_false _ l _ (fun e he => resolvePred name cat e (hl e he))]
      simp [List.find?, hn, hc, hu]
    cases reg with
    | none =>
      refine ⟨[⟨name, cat, sourceUri⟩], rfl, ?_⟩
      have := hfind [] (by intro e he; cases he)
      simpa using this
    | some l =>
      have hany : l.any (entryMatches name cat) = false := by
        cases hval : l.any (entryMatches name cat) with
        | false => rfl
        | true =>
          obtain ⟨e, he, _, _, h3, h4⟩ := (any_entryMatches_iff l name cat).mp hval
          exact absurd ⟨h3, h4⟩ (habs e he).1
      refine ⟨l ++ [⟨name, cat, sourceUri⟩], ?_, ?_⟩
      · simp [registerTutorial, hany]
      · exact hfind l (fun e he => (habs e he).2)
  · intro reg name cat habs
    cases reg with
    | none => rfl
    | some l =>
      unfold getUriForDidactNameAndCategory
      have : l.find? (fun e => !e.category.isEmpty && !e.name.isEmpty &&
          !e.sourceUri.isEmpty && e.name == name && e.category == cat) = none := by
        rw [List.find?_eq_none]
        intro e he
        simp only [Bool.not_eq_true]
        exact resolvePred name cat e (habs e he)
      simp [this]

/-- Claim C4 witness: registering `("b","cat")` with URI `"u2"` over a
registry holding `("a","cat")` and resolving it returns `"u2"`, and resolving
the never-registered `("z","cat")` returns `undefined`. -/
theorem registerTutorial_resolveUri_roundtrip_witness :
    (∃ updated,
      registerTutorial (some [⟨"a", "cat", "u"⟩]) "b" "u2" "cat" = .ok updated ∧
      getUriForDidactNameAndCategory (some updated) "b" "cat" = some "u2") ∧
    getUriForDidactNameAndCategory (some [⟨"a", "cat", "u"⟩]) "z" "cat" = none :=
  ⟨registerTutorial_resolveUri_roundtrip.1 (some [⟨"a", "cat", "u"⟩]) "b" "u2" "cat"
      (by decide) (by decide) (by decide) (by decide),
    registerTutorial_resolveUri_roundtrip.2 (some [⟨"a", "cat", "u"⟩]) "z" "cat"
      (by decide)⟩

/-- Claim C5, counterexample: an entry registered with the empty name under
category `"c"` is a registration whose stored category equals `"c"`, yet
`getTutorialsForCategory "c"` omits its name (the truthiness guard skips
entries with falsy `name`), so the result is not exactly the names of the
matching registrations. -/
theorem getTutorialsForCategory_exact_cex :
    registerTutorial (some []) "" "u" "c" = .ok [⟨"", "c", "u"⟩] ∧
    (⟨"", "c", "u"⟩ : TutorialEntry).category = "c" ∧
    getTutorialsForCategory (some [⟨"", "c", "u"⟩]) "c" = [] ∧
    ("" : String) ∉ getTutorialsForCategory (some [⟨"", "c", "u"⟩]) "c" :=
  ⟨rfl, rfl, rfl, by decide⟩

/-- Claim C5 as amended: `getTutorialsForCategory c` returns exactly the names
of registrations with non-empty name and non-empty category whose stored
category equals `c` under case-sensitive comparison; in particular a query
category that differs from every stored category (for example only in letter
case) yields the empty list, even though duplicate detection lowercases
categories. -/
theorem getTutorialsForCategory_exact_case (l : List TutorialEntry) (c : String) :
    (∀ n, n ∈ getTutorialsForCategory (some l) c ↔
      ∃ e ∈ l, e.name = n ∧ e.category = c ∧
        e.name.isEmpty = false ∧ e.category.isEmpty = false) ∧
    ((∀ e ∈ l, e.category ≠ c) → getTutorialsForCategory (some l) c = []) := by
  constructor
  · intro n
    simp only [getTutorialsForCategory, List.mem_map, List.mem_filter,
      Bool.and_eq_true, Bool.not_eq_true', beq_iff_eq]
    tauto
  · intro h
    unfold getTutorialsForCategory
    have : l.filter (fun e => !e.category.isEmpty && !e.name.isEmpty &&
        e.category == c) = [] := by
      rw [List.filter_eq_nil_iff]
      intro e he
      simp [h e he]
    simp [this]

/-- Claim C5 witness: with `("a","Cat")` registered, querying the category
`"cat"` (differing only in case) yields the empty list. -/
theorem getTutorialsForCategory_exact_case_witness :
    (("a" : String) ∈ getTutorialsForCategory (some [⟨"a", "Cat", "u"⟩]) "Cat" ↔
      ∃ e ∈ [(⟨"a", "Cat", "u"⟩ : TutorialEntry)], e.name = "a" ∧ e.category = "Cat" ∧
        e.name.isEmpty = false ∧ e.category.isEmpty = false) ∧
    getTutorialsForCategory (some [⟨"a", "Cat", "u"⟩]) "cat" = [] :=
  ⟨(getTutorialsForCategory_exact_case [⟨"a", "Cat", "u"⟩] "Cat").1 "a",
    (getTutorialsForCategory_exact_case [⟨"a", "Cat", "u"⟩] "cat").2 (by decide)⟩

/-! ### Helper lemmas for the tree model -/

/-- A failed `doesNodeExist` scan means no stored node carries the label. -/
theorem doesNodeExist_false_iff {α : Type} (labelOf : α → String) (ns : List α)
    (n : α) :
    doesNodeExist labelOf ns n = false ↔ ∀ m ∈ ns, labelOf m ≠ labelOf n := by
  simp [doesNodeExist, List.any_eq_false]

/-- Appending a node whose label passed the `doesNodeExist` guard keeps the
label list duplicate-free. -/
theorem map_concat_nodup {α : Type} (labelOf : α → String) (acc : List α) (n : α)
    (h : (acc.map labelOf).Nodup) (hfresh : doesNodeExist labelOf acc n = false) :
    ((acc ++ [n]).map labelOf).Nodup := by
  rw [List.map_append, List.map_singleton, List.nodup_append]
  refine ⟨h, List.nodup_singleton _, ?_⟩
  intro x hx hx2
  rw [List.mem_singleton] at hx2
  subst hx2
  obtain ⟨m, hm, hml⟩ := List.mem_map.mp hx
  exact (doesNodeExist_false_iff labelOf acc n).mp hfresh m hm hml

/-- The category loop preserves duplicate-freedom of the top-level labels. -/
theorem processRegisteredTutorialsAux_nodup (cats : List String) :
    ∀ acc : List TreeNode, (acc.map TreeNode.label).Nodup →
      ((processRegisteredTutorialsAux acc cats).map TreeNode.label).Nodup := by
  induction cats with
  | nil => intro acc h; simpa [processRegisteredTutorialsAux] using h
  | cons c rest ih =>
    intro acc h
    rw [processRegisteredTutorialsAux]
    cases hex : doesNodeExist TreeNode.label acc ⟨some c, c, none, .Collapsed⟩ with
    | true => simp only [hex, if_true]; exact ih acc h
    | false =>
      simp only [hex, Bool.false_eq_true, if_false]
      exact ih _ (map_concat_nodup _ acc _ h hex)

/-- The tutorial loop produces duplicate-free labels. -/
theorem processTutorialsForCategoryAux_nodup (registry : Option (List TutorialEntry))
    (cat : String) (timeForUri : String → Int) (tutorials : List String) :
    ∀ children : List TutorialNode, (children.map TutorialNode.label).Nodup →
      ((processTutorialsForCategoryAux registry cat timeForUri children
        tutorials).map TutorialNode.label).Nodup := by
  induction tutorials with
  | nil => intro children h; simpa [processTutorialsForCategoryAux] using h
  | cons t rest ih =>
    intro children h
    rw [processTutorialsForCategoryAux]
    split
    · exact ih children h
    · next hex =>
      rw [Bool.not_eq_true] at hex
      exact ih _ (map_concat_nodup _ children _ h hex)

/-- The Markdown heading loop produces duplicate-free labels. -/
theorem processHeadingsMarkdownAux_nodup (category : Option String)
    (tutUri : String) (hs : List HNode) :
    ∀ (children : List HeadingNode) (warnings : List String),
      (children.map HeadingNode.label).Nodup →
      (((processHeadingsMarkdownAux category tutUri hs children
        warnings).1).map HeadingNode.label).Nodup := by
  induction hs with
  | nil => intro children warnings h; simpa [processHeadingsMarkdownAux] using h
  | cons hd rest ih =>
    intro children warnings h
    rw [processHeadingsMarkdownAux]
    split
    · next hcond =>
      rw [Bool.and_eq_true, Bool.not_eq_true'] at hcond
      exact ih _ _ (map_concat_nodup _ children _ h hcond.1)
    · exact ih _ _ h

/-- The AsciiDoc heading loop produces duplicate-free labels. -/
theorem processHeadingsAdocAux_nodup (category : Option String)
    (tutUri : String) (hs : List HNode) :
    ∀ (children : List HeadingNode) (warnings : List String),
      (children.map HeadingNode.label).Nodup →
      (((processHeadingsAdocAux category tutUri hs children
        warnings).1).map HeadingNode.label).Nodup := by
  induction hs with
  | nil => intro children warnings h; simpa [processHeadingsAdocAux] using h
  | cons hd rest ih =>
    intro children warnings h
    rw [processHeadingsAdocAux]
    cases hscan : (getNodeFromADOCDiv hd (some tutUri) category).1 with
    | none => exact ih _ _ h
    | some newNode =>
      cases hex : doesNodeExist HeadingNode.label children newNode with
      | true => simp only [hex, if_true]; exact ih _ _ h
      | false =>
        simp only [hex, Bool.false_eq_true, if_false]
        exact ih _ _ (map_concat_nodup _ children _ h hex)

/-! ### Claim theorems: tree model (C6-C10) -/

/-- Claim C9: every inserter of sibling nodes (`processRegisteredTutorials`
for categories, `processTutorialsForCategory` for tutorials, and both
branches of `processHeadingsForTutorial` for headings) guards insertion with
`doesNodeExist`, which compares labels only, so no sibling list ever holds
two nodes with the same label, whatever their other fields. -/
theorem sibling_labels_unique :
    (∀ (registry : Option (List TutorialEntry)) (treeNodes : List TreeNode),
      (treeNodes.map TreeNode.label).Nodup →
      ((processRegisteredTutorials registry treeNodes).map TreeNode.label).Nodup) ∧
    (∀ (registry : Option (List TutorialEntry)) (category : Option String)
      (timeForUri : String → Int),
      ((processTutorialsForCategory registry category
        timeForUri).map TutorialNode.label).Nodup) ∧
    (∀ (category : Option String) (tutUri : String) (hs : List HNode),
      ((processHeadingsMarkdown category tutUri
        hs).1.map HeadingNode.label).Nodup) ∧
    (∀ (category : Option String) (tutUri : String) (hs : List HNode),
      ((processHeadingsAdoc category tutUri hs).1.map HeadingNode.label).Nodup) := by
  refine ⟨?_, ?_, ?_, ?_⟩
  · intro registry treeNodes h
    exact processRegisteredTutorialsAux_nodup (getDidactCategories registry)
      treeNodes h
  · intro registry category timeForUri
    cases category with
    | none => simp [processTutorialsForCategory]
    | some cat =>
      exact processTutorialsForCategoryAux_nodup registry cat timeForUri
        (getTutorialsForCategory registry cat) [] (by simp)
  · intro category tutUri hs
    exact processHeadingsMarkdownAux_nodup category tutUri hs [] [] (by simp)
  · intro category tutUri hs
    exact processHeadingsAdocAux_nodup category tutUri hs [] [] (by simp)

/-- Claim C9 witness: concrete runs of all four inserters, starting from the
empty sibling list, produce duplicate-free label lists even when the inputs
repeat categories, names and headings. -/
theorem sibling_labels_unique_witness :
    ((processRegisteredTutorials
      (some [⟨"a", "cat", "u"⟩, ⟨"b", "cat", "u"⟩]) []).map TreeNode.label).Nodup ∧
    ((processTutorialsForCategory (some [⟨"a", "cat", "u"⟩]) (some "cat")
      (fun _ => 5)).map TutorialNode.label).Nodup ∧
    ((processHeadingsMarkdown (some "cat") "u"
      [HNode.elem "H1" [("time", "5")] "T" [],
        HNode.elem "H1" [("time", "5")] "T" []]).1.map HeadingNode.label).Nodup ∧
    ((processHeadingsAdoc (some "cat") "u"
      [HNode.elem "DIV" [("class", "time=3")] ""
        [HNode.elem "H2" [] "T" []]]).1.map HeadingNode.label).Nodup :=
  ⟨sibling_labels_unique.1 (some [⟨"a", "cat", "u"⟩, ⟨"b", "cat", "u"⟩]) []
      (by simp),
    sibling_labels_unique.2.1 (some [⟨"a", "cat", "u"⟩]) (some "cat") (fun _ => 5),
    sibling_labels_unique.2.2.1 (some "cat") "u"
      [HNode.elem "H1" [("time", "5")] "T" [],
        HNode.elem "H1" [("time", "5")] "T" []],
    sibling_labels_unique.2.2.2 (some "cat") "u"
      [HNode.elem "DIV" [("class", "time=3")] "" [HNode.elem "H2" [] "T" []]]⟩

/-- Claim C10: `findCategoryNode c` succeeds exactly when some top-level node
carries the label `c`, and the node it returns is the freshly built collapsed
`TreeNode(c, c, undefined)` — never the stored instance, so stored fields
other than the label do not show in the result. -/
theorem findCategoryNode_fresh (treeNodes : List TreeNode) (category : String) :
    ((∃ n ∈ treeNodes, n.label = category) →
      findCategoryNode treeNodes category =
        some ⟨some category, category, none, .Collapsed⟩) ∧
    ((∀ n ∈ treeNodes, n.label ≠ category) →
      findCategoryNode treeNodes category = none) := by
  constructor
  · rintro ⟨n, hn, hl⟩
    have hex : doesNodeExist TreeNode.label treeNodes
        ⟨some category, category, none, .Collapsed⟩ = true := by
      simp only [doesNodeExist, List.any_eq_true]
      exact ⟨n, hn, by simp [hl]⟩
    simp [findCategoryNode, hex]
  · intro h
    have hex : doesNodeExist TreeNode.label treeNodes
        ⟨some category, category, none, .Collapsed⟩ = false :=
      (doesNodeExist_false_iff TreeNode.label treeNodes _).mpr (fun m hm => h m hm)
    simp [findCategoryNode, hex]

/-- Claim C10 witness: a stored node labelled `"cat"` with its own uri and
expanded state is found, but the result is the fresh collapsed node with
`uri = undefined`; a label present nowhere yields `null`. -/
theorem findCategoryNode_fresh_witness :
    findCategoryNode [⟨some "x", "cat", some "u", .Expanded⟩] "cat" =
      some ⟨some "cat", "cat", none, .Collapsed⟩ ∧
    findCategoryNode [⟨some "x", "cat", some "u", .Expanded⟩] "other" = none :=
  ⟨(findCategoryNode_fresh [⟨some "x", "cat", some "u", .Expanded⟩] "cat").1
      ⟨⟨some "x", "cat", some "u", .Expanded⟩, by simp, rfl⟩,
    (findCategoryNode_fresh [⟨some "x", "cat", some "u", .Expanded⟩] "other").2
      (by decide)⟩

/-- Children that are text nodes or elements whose tag does not start with
`'H'` are skipped by the ADOC child scan without touching the state. -/
theorem adocChildScan_skip (timeValue : Option Int) (splitTime : String)
    (category tutUri : Option String) (pre rest : List HNode)
    (warnings : List String) (hpre : ∀ n ∈ pre, isHeadingLike n = false) :
    adocChildScan timeValue splitTime category tutUri (pre ++ rest) warnings =
      adocChildScan timeValue splitTime category tutUri rest warnings := by
  induction pre with
  | nil => rfl
  | cons n l ih =>
    have hn := hpre n (List.mem_cons_self n l)
    have hrest : ∀ m ∈ l, isHeadingLike m = false :=
      fun m hm => hpre m (List.mem_cons_of_mem n hm)
    cases n with
    | elem tagName a t c =>
      simp only [isHeadingLike] at hn
      simp only [List.cons_append, adocChildScan, hn, Bool.false_eq_true, if_false]
      exact ih hrest
    | textNode s =>
      simp only [List.cons_append, adocChildScan]
      exact ih hrest

/-- With a valid time value, the first `'H'`-tagged element child makes the
ADOC child scan return the heading node at once, warnings untouched. -/
theorem adocChildScan_heading_valid (v : Int) (splitTime : String)
    (category tutUri : Option String) (tag text : String)
    (attrs : List (String × String)) (cs rest : List HNode)
    (warnings : List String) (htag : jsStartsWith tag "H" = true) :
    adocChildScan (some v) splitTime category tutUri
      (HNode.elem tag attrs text cs :: rest) warnings =
      (some ⟨category, text, tutUri, some s!"(~{v} mins)"⟩, warnings) := by
  simp [adocChildScan, htag]

/-- A `time=` chunk with a valid numeric value makes the chunk scan return
the heading node built from the first `'H'`-tagged element child. -/
theorem adocChunkScan_hit (category tutUri : Option String) (chunk : String)
    (restChunks : List String) (v : Int)
    (hchunk : jsStartsWith chunk "time=" = true)
    (htime : jsNumber (some ((jsSplitOnChar '=' chunk).getD 1 "")) = some v)
    (pre post : List HNode) (hpre : ∀ n ∈ pre, isHeadingLike n = false)
    (tag text : String) (attrs : List (String × String)) (cs : List HNode)
    (htag : jsStartsWith tag "H" = true) (warnings : List String) :
    adocChunkScan (pre ++ HNode.elem tag attrs text cs :: post) category tutUri
      (chunk :: restChunks) warnings =
      (some ⟨category, text, tutUri, some s!"(~{v} mins)"⟩, warnings) := by
  rw [adocChunkScan]
  simp only [hchunk, if_true, htime]
  rw [if_pos (by simp)]
  rw [adocChildScan_skip _ _ _ _ pre _ warnings hpre]
  rw [adocChildScan_heading_valid v _ category tutUri tag text attrs cs post
    warnings htag]

/-! ### Claim theorems C6-C8 -/

/-- Claim C6, counterexample: a Markdown heading whose `time` attribute is
the invalid token `"abc"` is not yielded at all by the extraction (the result
list is empty, rather than containing a heading with absent time estimate);
the warning is still emitted. -/
theorem markdown_invalid_time_cex :
    (processHeadingsMarkdown (some "cat") "u"
      [HNode.elem "H1" [("time", "abc")] "T" []]).1 = [] ∧
    (processHeadingsMarkdown (some "cat") "u"
      [HNode.elem "H1" [("time", "abc")] "T" []]).2 = [headingWarning "T" "abc"] :=
  ⟨rfl, rfl⟩

/-- Claim C6 as amended: a Markdown heading whose `time` attribute is
non-numeric or missing is omitted from the extracted list entirely (never
yielded with a zero — or any — estimate) and emits exactly one warning; a
heading with a valid numeric token `v` is yielded with time label
`"(~v mins)"` and no warning. -/
theorem markdown_time_handling (category : Option String)
    (tutUri tag title : String) (attrs : List (String × String)) (cs : List HNode) :
    (jsNumber ((HNode.elem tag attrs title cs).getAttribute "time") = none →
      processHeadingsMarkdown category tutUri [HNode.elem tag attrs title cs] =
        ([], [headingWarning title
          (jsDisplay ((HNode.elem tag attrs title cs).getAttribute "time"))])) ∧
    (∀ v : Int,
      jsNumber ((HNode.elem tag attrs title cs).getAttribute "time") = some v →
      processHeadingsMarkdown category tutUri [HNode.elem tag attrs title cs] =
        ([⟨category, title, some tutUri, some s!"(~{v} mins)"⟩], [])) := by
  constructor
  · intro h
    simp [processHeadingsMarkdown, processHeadingsMarkdownAux, h, HNode.rawText,
      doesNodeExist]
  · intro v h
    simp [processHeadingsMarkdown, processHeadingsMarkdownAux, h, HNode.rawText,
      doesNodeExist]

/-- Claim C6 witness: the invalid token `"xyz"` yields no heading and one
warning; the valid token `"5"` yields the `"(~5 mins)"` heading and no
warning. -/
theorem markdown_time_handling_witness :
    processHeadingsMarkdown (some "cat") "u"
      [HNode.elem "H1" [("time", "xyz")] "T" []] =
      ([], [headingWarning "T"
        (jsDisplay ((HNode.elem "H1" [("time", "xyz")] "T"
          []).getAttribute "time"))]) ∧
    processHeadingsMarkdown (some "cat") "u"
      [HNode.elem "H1" [("time", "5")] "T" []] =
      ([⟨some "cat", "T", some "u", some "(~5 mins)"⟩], []) :=
  ⟨(markdown_time_handling (some "cat") "u" "H1" "T" [("time", "xyz")] []).1
      (by decide),
    (markdown_time_handling (some "cat") "u" "H1" "T" [("time", "5")] []).2 5
      (by decide)⟩

/-- Claim C7, counterexample: a div with class `"time=10 foo"` whose children
include the `H2` "Step One" — but preceded by an `H1` "Other" — produces a
heading node labelled `"Other"`, not `"Step One"`: the scan takes the *first*
`'H'`-tagged child, not the `H2`. -/
theorem adoc_step_one_cex :
    (getNodeFromADOCDiv (HNode.elem "DIV" [("class", "time=10 foo")] ""
      [HNode.elem "H1" [] "Other" [], HNode.elem "H2" [] "Step One" []])
      (some "u") (some "cat")).1 =
      some ⟨some "cat", "Other", some "u", some "(~10 mins)"⟩ ∧
    ((getNodeFromADOCDiv (HNode.elem "DIV" [("class", "time=10 foo")] ""
      [HNode.elem "H1" [] "Other" [], HNode.elem "H2" [] "Step One" []])
      (some "u") (some "cat")).1.map HeadingNode.label) ≠ some "Step One" :=
  ⟨rfl, by decide⟩

/-- Claim C7 as amended: for a div with class `"time=10 foo"` whose first
child element with tag starting `'H'` is an `H2` with visible text
`"Step One"`, `getNodeFromADOCDiv` returns the heading node labelled
`"Step One"` with description `"(~10 mins)"` (and no warnings). -/
theorem adoc_step_one (pre post : List HNode)
    (hpre : ∀ n ∈ pre, isHeadingLike n = false)
    (attrs : List (String × String)) (cs : List HNode) (divText : String)
    (tutUri category : Option String) :
    getNodeFromADOCDiv (HNode.elem "DIV" [("class", "time=10 foo")] divText
      (pre ++ HNode.elem "H2" attrs "Step One" cs :: post)) tutUri category =
      (some ⟨category, "Step One", tutUri, some "(~10 mins)"⟩, []) := by
  have hattr : (HNode.elem "DIV" [("class", "time=10 foo")] divText
      (pre ++ HNode.elem "H2" attrs "Step One" cs :: post)).getAttribute "class" =
      some "time=10 foo" := rfl
  simp only [getNodeFromADOCDiv, hattr]
  rw [if_neg (by decide)]
  have hsp : jsSplitOnChar ' ' "time=10 foo" = ["time=10", "foo"] := by decide
  rw [hsp]
  have := adocChunkScan_hit category tutUri "time=10" ["foo"] 10 (by decide)
    (by decide) pre post hpre "H2" "Step One" attrs cs (by decide) []
  simpa [HNode.childNodes] using this

/-- Claim C7 witness: the div wrapping exactly the `H2` "Step One" produces
the "Step One" heading node with description `"(~10 mins)"`. -/
theorem adoc_step_one_witness :
    getNodeFromADOCDiv (HNode.elem "DIV" [("class", "time=10 foo")] ""
      [HNode.elem "H2" [] "Step One" []]) (some "u") (some "cat") =
      (some ⟨some "cat", "Step One", some "u", some "(~10 mins)"⟩, []) :=
  adoc_step_one [] [] (by simp) [] [] "" (some "u") (some "cat")

/-- Claim C8, counterexample: an `HR` child — whose tag is none of `H1..H6` —
supplies the title of the heading node produced for a div with the valid
class token `time=3`, because the scan only tests `tagName.startsWith('H')`. -/
theorem adoc_first_heading_cex :
    (getNodeFromADOCDiv (HNode.elem "DIV" [("class", "time=3")] ""
      [HNode.elem "HR" [] "Not a heading" []]) (some "u") (some "cat")).1 =
      some ⟨some "cat", "Not a heading", some "u", some "(~3 mins)"⟩ ∧
    ("HR" : String) ∉ ["H1", "H2", "H3", "H4", "H5", "H6"] :=
  ⟨rfl, by decide⟩

/-- Chunks of the class list that do not start with `time=` are skipped by
the chunk scan without touching the state. -/
theorem adocChunkScan_skip_chunks (divChildren : List HNode)
    (category tutUri : Option String) (preChunks rest : List String)
    (warnings : List String)
    (h : ∀ c ∈ preChunks, jsStartsWith c "time=" = false) :
    adocChunkScan divChildren category tutUri (preChunks ++ rest) warnings =
      adocChunkScan divChildren category tutUri rest warnings := by
  induction preChunks with
  | nil => rfl
  | cons c l ih =>
    have hc := h c (List.mem_cons_self c l)
    simp only [List.cons_append]
    rw [adocChunkScan]
    simp only [hc, Bool.false_eq_true, if_false]
    exact ih (fun d hd => h d (List.mem_cons_of_mem c hd))

/-- Claim C8 as amended: for a wrapping div whose space-delimited class list
carries a valid `time=<number>` token (any chunks before it are not `time=`
tokens, chunks after it arbitrary), the title of the produced heading node is
the visible text of the first child element whose tag starts with `'H'` —
which every `H1..H6` tag does, but so do tags such as `HR` or `HEADER`. -/
theorem adoc_first_heading_supplies_title (cls chunk : String)
    (preChunks restChunks : List String) (v : Int)
    (hsplit : jsSplitOnChar ' ' cls = preChunks ++ chunk :: restChunks)
    (hpreC : ∀ c ∈ preChunks, jsStartsWith c "time=" = false)
    (hchunk : jsStartsWith chunk "time=" = true)
    (htime : jsNumber (some ((jsSplitOnChar '=' chunk).getD 1 "")) = some v)
    (pre post : List HNode) (hpre : ∀ n ∈ pre, isHeadingLike n = false)
    (tag text : String) (attrs : List (String × String)) (cs : List HNode)
    (htag : jsStartsWith tag "H" = true) (divText : String)
    (tutUri category : Option String) :
    getNodeFromADOCDiv (HNode.elem "DIV" [("class", cls)] divText
      (pre ++ HNode.elem tag attrs text cs :: post)) tutUri category =
      (some ⟨category, text, tutUri, some s!"(~{v} mins)"⟩, []) := by
  have hne : cls.isEmpty = false := by
    cases hval : cls.isEmpty with
    | false => rfl
    | true =>
      exfalso
      have hcls : cls = "" := (String.isEmpty_iff cls).mp hval
      subst hcls
      have : ([""] : List String) = preChunks ++ chunk :: restChunks := hsplit
      cases preChunks with
      | nil =>
        simp only [List.nil_append, List.cons.injEq] at this
        rw [← this.1] at hchunk
        exact absurd hchunk (by decide)
      | cons a l => simp at this
  have hattr : (HNode.elem "DIV" [("class", cls)] divText
      (pre ++ HNode.elem tag attrs text cs :: post)).getAttribute "class" =
      some cls := rfl
  simp only [getNodeFromADOCDiv, hattr]
  rw [if_neg (by simp [hne])]
  rw [show (HNode.elem "DIV" [("class", cls)] divText
    (pre ++ HNode.elem tag attrs text cs :: post)).childNodes =
    pre ++ HNode.elem tag attrs text cs :: post from rfl]
  rw [hsplit]
  rw [adocChunkScan_skip_chunks (pre ++ HNode.elem tag attrs text cs :: post)
    category tutUri preChunks (chunk :: restChunks) [] hpreC]
  exact adocChunkScan_hit category tutUri chunk restChunks v hchunk htime pre
    post hpre tag text attrs cs htag []

/-- Claim C8 witness: in the space-delimited class list `"foo time=7 bar"`
the middle token is the valid `time=` token, and the tag `HEADER` (not an
`H1..H6` heading) supplies the title, past a leading text node. -/
theorem adoc_first_heading_supplies_title_witness :
    getNodeFromADOCDiv (HNode.elem "DIV" [("class", "foo time=7 bar")] ""
      [HNode.textNode "x", HNode.elem "HEADER" [] "From header" []])
      (some "u") (some "cat") =
      (some ⟨some "cat", "From header", some "u", some "(~7 mins)"⟩, []) :=
  adoc_first_heading_supplies_title "foo time=7 bar" "time=7" ["foo"] ["bar"] 7
    (by decide) (by decide) (by decide) (by decide) [HNode.textNode "x"] []
    (by simp [isHeadingLike]) "HEADER" "From header" [] [] (by decide) ""
    (some "u") (some "cat")

end Didact
